import Mathlib

/-!
# Verification of the go-telegram-forwarder-bot core against its specification

This file shallowly embeds the parts of the repository that the claims under
scrutiny talk about, and proves (or refutes) each claim against the embedding.

Conventions of the embedding:

* Go byte slices (`[]byte`) are `List Nat` with every element `< 256`;
  Go strings (both as text and as byte sequences) are `List Char` or
  `List Nat` depending on how the source manipulates them.
* Database access is error-free: a repository over the rows of one
  `(bot, guest)` pair is a `List BlacklistEntry` holding the non-deleted
  rows ordered by `created_at DESC` (newest first), exactly the order in
  which `blacklist_repo.go` returns them (`Order("created_at DESC")`,
  filtered on `deleted_at IS NULL`).  `GetLatestByBotIDAndGuestID` is thus
  `List.head?`, with `none` playing the role of `gorm.ErrRecordNotFound`.
* `created_at` timestamps are natural numbers; `time.Time.After` is `>`.
* Nondeterministic inputs of a function (results of external Telegram API
  calls, success of a database insert, the random nonce) are passed as
  explicit arguments, so every function of the source becomes a pure Lean
  function of its code path.
-/

namespace ForwarderBot

/-! ## Blacklist data model (`internal/models/blacklist.go`) -/

/-- The `BlacklistRequestType` of `internal/models/blacklist.go`:
`ban` or `unban`. -/
inductive BlacklistRequestType
  | ban
  | unban
  deriving DecidableEq, Repr

/-- The `BlacklistStatus` of `internal/models/blacklist.go`:
`pending`, `approved` or `rejected`. -/
inductive BlacklistStatus
  | pending
  | approved
  | rejected
  deriving DecidableEq, Repr

/-- One row of the `blacklists` table restricted to the fields the
blacklist service reads: request type, status and creation time.
Rows of a single `(bot, guest)` pair are modelled, so the key columns are
omitted. -/
structure BlacklistEntry where
  requestType : BlacklistRequestType
  status : BlacklistStatus
  createdAt : Nat
  deriving DecidableEq, Repr

/-- A store of blacklist rows for one `(bot, guest)` pair, newest first
(the order `GetAllByBotIDAndGuestID` and `GetLatestByBotIDAndGuestID`
return): the `created_at` stamps strictly decrease along the list. -/
def StoreSorted (l : List BlacklistEntry) : Prop :=
  l.Pairwise (fun a b => b.createdAt < a.createdAt)

/-! ## `Service.IsBlacklisted`, latest-entry version
(`internal/service/blacklist/service.go`, first document, lines 35-98) -/

/-- The function `Service.IsBlacklisted` (latest-entry version).  Here `guestExists` is
whether `guestRepo.GetByBotIDAndUserID` finds the guest row (when it does
not, the code returns `false`), and `entries` is the pair's store.
`GetLatestByBotIDAndGuestID` is the head of the store.  The final
fall-through branch (unknown request type) cannot arise because
`BlacklistRequestType` is exhaustive. -/
def isBlacklistedLatest (guestExists : Bool) (entries : List BlacklistEntry) : Bool :=
  if !guestExists then false
  else
    match entries.head? with
    | none => false
    | some latest =>
      match latest.requestType with
      | .ban =>
        (latest.status = BlacklistStatus.approved || latest.status = BlacklistStatus.pending)
      | .unban =>
        (latest.status = BlacklistStatus.rejected || latest.status = BlacklistStatus.pending)

/-- The decision table of spec §4.8, applied to the latest entry (`none`
when there is no entry or no guest row).  This is the specification side
of claim C1, written from the spec's table, not from the code. -/
def specBlacklistTable : Option BlacklistEntry → Bool
  | none => false
  | some e =>
    match e.requestType, e.status with
    | .ban, .approved => true
    | .ban, .pending => true
    | .ban, .rejected => false
    | .unban, .approved => false
    | .unban, .pending => true
    | .unban, .rejected => true

/-! ## `Service.IsBlacklisted`, scan-all version
(`internal/service/blacklist/service.go`, second document, lines 260-330) -/

/-- One step of the scan-all loop's tracking of a "latest" entry:
replace the current candidate when the predicate holds and the candidate
is absent or strictly older (`bl.CreatedAt.After(cur.CreatedAt)`). -/
def updLatest (p : BlacklistEntry → Bool) (cur : Option BlacklistEntry)
    (bl : BlacklistEntry) : Option BlacklistEntry :=
  if p bl then
    match cur with
    | none => some bl
    | some c => if bl.createdAt > c.createdAt then some bl else cur
  else cur

/-- Is the entry an approved unban (first tracker of the scan-all loop)? -/
def isApprovedUnban (bl : BlacklistEntry) : Bool :=
  bl.requestType = BlacklistRequestType.unban && bl.status = BlacklistStatus.approved

/-- Is the entry an active ban, i.e. approved or pending (second tracker
of the scan-all loop)? -/
def isActiveBan (bl : BlacklistEntry) : Bool :=
  bl.requestType = BlacklistRequestType.ban &&
    (bl.status = BlacklistStatus.approved || bl.status = BlacklistStatus.pending)

/-- The single pass of the scan-all version over all records, updating
both trackers, exactly as the Go `for _, bl := range allBlacklists` loop. -/
def scanTrackers (entries : List BlacklistEntry) :
    Option BlacklistEntry × Option BlacklistEntry :=
  entries.foldl
    (fun acc bl => (updLatest isApprovedUnban acc.1 bl, updLatest isActiveBan acc.2 bl))
    (none, none)

/-- The function `Service.IsBlacklisted` (scan-all version): fetch all records, return
`false` on an empty set, then compare the latest approved unban with the
latest active ban. -/
def isBlacklistedScan (guestExists : Bool) (entries : List BlacklistEntry) : Bool :=
  if !guestExists then false
  else if entries.isEmpty then false
  else
    let t := scanTrackers entries
    match t.1, t.2 with
    | some _, none => false
    | some uu, some bb => if uu.createdAt > bb.createdAt then false else true
    | none, some _ => true
    | none, none => false

/-! ## Transition gates and request creation
(`internal/service/blacklist/service.go`, first document, lines 100-193) -/

/-- The `canTrigger` computation of `CreateBanRequest`: the latest entry
admits a new ban request iff it is a pending/rejected ban or an approved
unban. -/
def canTriggerBan (latest : BlacklistEntry) : Bool :=
  match latest.requestType with
  | .ban =>
    (latest.status = BlacklistStatus.pending || latest.status = BlacklistStatus.rejected)
  | .unban => latest.status = BlacklistStatus.approved

/-- The `canTrigger` computation of `CreateUnbanRequest`: the latest entry
admits a new unban request iff it is a rejected/pending unban or an
approved ban. -/
def canTriggerUnban (latest : BlacklistEntry) : Bool :=
  match latest.requestType with
  | .unban =>
    (latest.status = BlacklistStatus.rejected || latest.status = BlacklistStatus.pending)
  | .ban => latest.status = BlacklistStatus.approved

/-- The function `Service.CreateBanRequest` on the store of one `(bot, guest)` pair.
`now` is the `created_at` the database stamps on the new row.  Returns the
store after the call together with the created row or the error.  When the
pair has no row (`GetLatestByBotIDAndGuestID` yields record-not-found) the
gate is skipped, as in the source (`if err == nil && latest != nil`). -/
def createBanRequest (now : Nat) (entries : List BlacklistEntry) :
    List BlacklistEntry × Except String BlacklistEntry :=
  match entries.head? with
  | some latest =>
    if canTriggerBan latest then
      let row : BlacklistEntry := ⟨.ban, .pending, now⟩
      (row :: entries, .ok row)
    else
      (entries, .error "cannot trigger ban: latest state does not allow ban request")
  | none =>
    let row : BlacklistEntry := ⟨.ban, .pending, now⟩
    (row :: entries, .ok row)

/-- The function `Service.CreateUnbanRequest`, symmetric to `createBanRequest`. -/
def createUnbanRequest (now : Nat) (entries : List BlacklistEntry) :
    List BlacklistEntry × Except String BlacklistEntry :=
  match entries.head? with
  | some latest =>
    if canTriggerUnban latest then
      let row : BlacklistEntry := ⟨.unban, .pending, now⟩
      (row :: entries, .ok row)
    else
      (entries, .error "cannot trigger unban: latest state does not allow unban request")
  | none =>
    let row : BlacklistEntry := ⟨.unban, .pending, now⟩
    (row :: entries, .ok row)

/-- The transition gate on ban requests as the spec states it (claim C4's
wording): accepted iff there is no prior entry, or the latest entry is a
pending/rejected ban or an approved unban.  Spec side, for comparison with
`createBanRequest`. -/
def specBanGate : Option BlacklistEntry → Bool
  | none => true
  | some e =>
    match e.requestType, e.status with
    | .ban, .pending => true
    | .ban, .rejected => true
    | .unban, .approved => true
    | _, _ => false

/-- The transition gate on unban requests as the spec states it: accepted
iff there is no prior entry, or the latest entry is an approved ban or a
pending/rejected unban. -/
def specUnbanGate : Option BlacklistEntry → Bool
  | none => true
  | some e =>
    match e.requestType, e.status with
    | .ban, .approved => true
    | .unban, .pending => true
    | .unban, .rejected => true
    | _, _ => false

/-! ## Go errors and substring classification
(`internal/service/message/` retry handler, `src/unnamed/part_012`) -/

/-- Does the first list occur at the very start of the second?
(`strings.HasPrefix` over rune lists.) -/
def leadMatch : List Char → List Char → Bool
  | [], _ => true
  | _ :: _, [] => false
  | a :: p, b :: t => a = b && leadMatch p t

/-- Does `pat` occur somewhere inside the text? (`strings.Contains` over
rune lists.) -/
def containsCl (pat : List Char) : List Char → Bool
  | [] => leadMatch pat []
  | b :: rest => leadMatch pat (b :: rest) || containsCl pat rest

/-- A Go `error` as the retry handler distinguishes them: a `net.Error`
(with its `Timeout()` and `Temporary()` findings and its message), a plain
error with a message, or an error wrapped by `fmt.Errorf("...: %w", err)`.
-/
inductive GoError
  | net (timeout temporary : Bool) (msg : List Char)
  | str (msg : List Char)
  | wrap (pre : List Char) (inner : GoError)
  deriving DecidableEq, Repr

/-- Go's `err.Error()`: wrapping prepends the format text to the inner
message. -/
def errMsg : GoError → List Char
  | .net _ _ m => m
  | .str m => m
  | .wrap p i => p ++ errMsg i

/-- Go's `errors.As(err, &netErr)`: search the wrap chain for a `net.Error` and
surface its `Timeout()`/`Temporary()` flags. -/
def asNetError : GoError → Option (Bool × Bool)
  | .net t tm _ => some (t, tm)
  | .str _ => none
  | .wrap _ i => asNetError i

/-- The function `RetryHandler.isRetryableError` (`src/unnamed/part_012`, lines 67-88):
a `net.Error` is retryable iff `Timeout() || Temporary()`; otherwise the
message is scanned for the substrings `429`, `Too Many Requests`, `500`,
`502`, `503`, `504`. -/
def isRetryableError (e : GoError) : Bool :=
  match asNetError e with
  | some (t, tm) => t || tm
  | none =>
    let s := errMsg e
    if containsCl "429".toList s || containsCl "Too Many Requests".toList s then true
    else if containsCl "500".toList s || containsCl "502".toList s ||
        containsCl "503".toList s || containsCl "504".toList s then true
    else false

/-! ## `RetryHandler.Retry` (`src/unnamed/part_012`, lines 27-65) -/

/-- What a `Retry` run produced: how many times `fn` was invoked and the
returned error (`none` = success). -/
structure RetryResult where
  calls : Nat
  result : Option GoError
  deriving DecidableEq, Repr

/-- The loop body of `Retry`.  `outcome i` is what the `i`-th invocation
of `fn` returns (`none` = nil error); `fuel` is the number of loop
iterations left, `i` the next attempt index, `last` the `lastErr`
variable.  The context is never cancelled in this model (the
`ctx.Done()` arm of the `select` is not taken), and the `time.After`
sleep has no observable effect.  When the loop ends with `lastErr` still
nil (`maxAttempts <= 0`) the Go code produces a non-wrapping error whose
text renders the nil verb. -/
def retryAux (outcome : Nat → Option GoError) : Nat → Nat → Option GoError → RetryResult
  | 0, i, last =>
    match last with
    | some e => ⟨i, some (.wrap "max retries exceeded: ".toList e)⟩
    | none => ⟨i, some (.str "max retries exceeded: %!w(<nil>)".toList)⟩
  | fuel + 1, i, _ =>
    match outcome i with
    | none => ⟨i + 1, none⟩
    | some e =>
      if isRetryableError e then retryAux outcome fuel (i + 1) (some e)
      else ⟨i + 1, some e⟩

/-- The function `RetryHandler.Retry` with `maxAttempts` from the configuration. -/
def Retry (maxAttempts : Nat) (outcome : Nat → Option GoError) : RetryResult :=
  retryAux outcome maxAttempts 0 none

/-! ## `Service.HandleMessage` of the ForwarderBot
(`internal/service/forwarder_bot/service.go`, lines 157-234) -/

/-- Which branch `HandleMessage` takes for an update. -/
inductive MsgAction
  | command
  | reply
  | dropped
  | forwarded
  deriving DecidableEq, Repr

/-- The branch structure of `Service.HandleMessage`: a non-empty text
starting with `/` goes to `HandleCommand`; a reply goes to `HandleReply`;
otherwise the blacklist is consulted — a definite `true` drops the
message, while `false` or a lookup error falls through to the fan-out
forwarder. -/
def handleMessageAction (text : List Char) (isReply : Bool)
    (blacklistRes : Except GoError Bool) : MsgAction :=
  if text ≠ [] ∧ leadMatch "/".toList text then .command
  else if isReply then .reply
  else
    match blacklistRes with
    | .ok true => .dropped
    | _ => .forwarded

/-! ## Message mappings and the fan-out pipeline
(`internal/models/message_mapping.go`, `internal/service/message/forwarder.go`) -/

/-- The `MessageDirection` of the mapping model. -/
inductive MessageDirection
  | inbound
  | outbound
  deriving DecidableEq, Repr

/-- A `MessageMapping` row for one bot (the bot id is fixed throughout the
model and omitted). -/
structure MessageMapping where
  guestChatID : Int
  guestMessageID : Int
  recipientChatID : Int
  recipientMessageID : Int
  direction : MessageDirection
  deriving DecidableEq, Repr

/-- The function `Forwarder.forwardMessage` (lines 338-395): one attempt to forward a
guest message to one recipient.  `apiResult` is what
`bot.ForwardMessage` returns (the forwarded message id, or an error);
`createOk` is whether `messageMappingRepo.Create` succeeds.  On API
failure the wrapped error is returned and nothing is written.  On API
success the inbound mapping row is written when the insert succeeds; a
failed insert is only logged and the function still returns nil. -/
def forwardMessage (apiResult : Except GoError Int) (createOk : Bool)
    (guestChatID guestMessageID recipientChatID : Int)
    (store : List MessageMapping) : List MessageMapping × Option GoError :=
  match apiResult with
  | .error e => (store, some (.wrap "failed to forward message: ".toList e))
  | .ok forwardedID =>
    let mapping : MessageMapping :=
      ⟨guestChatID, guestMessageID, recipientChatID, forwardedID, .inbound⟩
    (if createOk then mapping :: store else store, none)

/-- The retried closure inside `Forwarder.ForwardReplyToGuest` (lines
445-471): one attempt to forward a recipient's reply back to the guest.
`apiError` is the error of `bot.ForwardMessage` (`none` = success; the
returned message is discarded by the source).  On success the outbound
mapping row keyed by the reply's own message id is written when the
insert succeeds; a failed insert is only logged and the attempt still
reports success. -/
def replyForwardAttempt (apiError : Option GoError) (createOk : Bool)
    (mapping : MessageMapping) (recipientChatID replyMessageID : Int)
    (store : List MessageMapping) : List MessageMapping × Option GoError :=
  match apiError with
  | some e => (store, some (.wrap "failed to forward reply: ".toList e))
  | none =>
    let replyMapping : MessageMapping :=
      ⟨mapping.guestChatID, mapping.guestMessageID, recipientChatID, replyMessageID, .outbound⟩
    (if createOk then replyMapping :: store else store, none)

/-- How one recipient's concurrent task of `ForwardToRecipients` ends:
denied by the global API rate limiter (no retry), failed after the retry
handler gave up, or forwarded successfully. -/
inductive RecipientOutcome
  | rateLimited
  | failed (e : GoError)
  | forwarded
  deriving DecidableEq, Repr

/-- The `ForwardResult` record of `internal/service/message/forwarder.go`. -/
structure ForwardResult where
  SuccessCount : Nat
  FailureCount : Nat
  Errors : List GoError
  deriving DecidableEq, Repr

/-- The mutex-guarded merge a recipient task performs on the shared
result. -/
def mergeOutcome (r : ForwardResult) : RecipientOutcome → ForwardResult
  | .rateLimited =>
    ⟨r.SuccessCount, r.FailureCount + 1, r.Errors ++ [.str "rate limit exceeded".toList]⟩
  | .failed e => ⟨r.SuccessCount, r.FailureCount + 1, r.Errors ++ [e]⟩
  | .forwarded => ⟨r.SuccessCount + 1, r.FailureCount, r.Errors⟩

/-- The function `Forwarder.ForwardToRecipients` (lines 87-336) reduced to its result
accounting: one outcome per loaded recipient, merged into the shared
result; with no recipients the function returns the zero result before
spawning anything (its `Errors` slice is nil).  The goroutines merge in
arbitrary order; the model merges in list order, which fixes the `Errors`
order but no count.  Runs in which the recipient query, the guest
upsert or the context fail return an error instead of a result and are
outside this model. -/
def ForwardToRecipients (outcomes : List RecipientOutcome) : ForwardResult :=
  if outcomes.isEmpty then ⟨0, 0, []⟩
  else outcomes.foldl mergeOutcome ⟨0, 0, []⟩

/-- The function `Service.HandleMessage` with the mapping store threaded through: the
fan-out (whatever mapping rows its successful forwards append) runs only
in the `forwarded` branch.  `fanout` abstracts the store effect of
`ForwardToRecipients`. -/
def handleMessageStore (text : List Char) (isReply : Bool)
    (blacklistRes : Except GoError Bool)
    (fanout : List MessageMapping → List MessageMapping)
    (store : List MessageMapping) : MsgAction × List MessageMapping :=
  match handleMessageAction text isReply blacklistRes with
  | .command => (.command, store)
  | .reply => (.reply, store)
  | .dropped => (.dropped, store)
  | .forwarded => (.forwarded, fanout store)

/-! ## The self-unban path
(`internal/service/forwarder_bot/blacklist_handler.go`, lines 206-352,
paired with the gated blacklist service of spec §4.8) -/

/-- How the no-reply branch of `Service.handleUnban` ends. -/
inductive UnbanOutcome
  | notBlacklisted
  | requested (subjectGuestID requestUserID : Int) (row : BlacklistEntry)
  | createFailed
  deriving DecidableEq, Repr

/-- The no-reply (self-request) branch of `Service.handleUnban`:
`guestUserID := userID`; if `IsBlacklisted` says no, the guest is told so
and nothing is written; otherwise `CreateUnbanRequest` runs with the
caller as subject and as requesting user, and its refusal leaves the
store untouched.  The approval prompt and chat replies are outside the
store model; the `IsBlacklisted` error branch does not arise in the
error-free store model. -/
def handleUnbanSelf (userID : Int) (guestExists : Bool)
    (entries : List BlacklistEntry) (now : Nat) : UnbanOutcome × List BlacklistEntry :=
  if !isBlacklistedLatest guestExists entries then (.notBlacklisted, entries)
  else
    match createUnbanRequest now entries with
    | (store, .ok row) => (.requested userID userID row, store)
    | (_, .error _) => (.createFailed, entries)

/-! ## The in-memory rate limiter
(`internal/service/message/rate_limiter.go`, lines 86-114) -/

/-- The `tokenBucket` record.  The Go fields are `float64`; the model
computes in exact rationals (the counterexample below uses only
dyadic values, on which `float64` arithmetic is also exact). -/
structure TokenBucket where
  tokens : ℚ
  lastUpdate : ℚ
  capacity : ℚ
  rate : ℚ
  deriving DecidableEq, Repr

/-- The function `RateLimiter.allowWithMemory` for one key: create the bucket full on
first use, refill linearly by elapsed wall time capped at capacity, then
consume one token if at least one is present. -/
def allowWithMemory (limitPerSecond : Nat) (now : ℚ) (stored : Option TokenBucket) :
    Bool × TokenBucket :=
  let bucket : TokenBucket :=
    match stored with
    | none => ⟨(limitPerSecond : ℚ), now, (limitPerSecond : ℚ), (limitPerSecond : ℚ)⟩
    | some b => b
  let elapsed := now - bucket.lastUpdate
  let tokens := min bucket.capacity (bucket.tokens + elapsed * bucket.rate)
  if 1 ≤ tokens then (true, ⟨tokens - 1, now, bucket.capacity, bucket.rate⟩)
  else (false, ⟨tokens, now, bucket.capacity, bucket.rate⟩)

/-- A run of calls at the given wall-clock instants against one key
(`rate_limit:telegram_api` for `AllowTelegramAPI`), starting from the
given stored bucket, recording each call's boolean. -/
def runLimiter (limitPerSecond : Nat) :
    Option TokenBucket → List ℚ → List (ℚ × Bool)
  | _, [] => []
  | stored, t :: ts =>
    let r := allowWithMemory limitPerSecond t stored
    (t, r.1) :: runLimiter limitPerSecond (some r.2) ts

/-- A sequence of `AllowTelegramAPI` calls on a fresh limiter
(`memoryStore` starts empty, so the key has no bucket). -/
def AllowTelegramAPIRun (limitPerSecond : Nat) (times : List ℚ) : List (ℚ × Bool) :=
  runLimiter limitPerSecond none times

/-- The number of `true` results whose call instant lies in the closed
window `[a, a+1]`. -/
def countAllowedIn (a : ℚ) : List (ℚ × Bool) → Nat
  | [] => 0
  | (t, ok) :: rest =>
    (if a ≤ t ∧ t ≤ a + 1 ∧ ok = true then 1 else 0) + countAllowedIn a rest

/-! ## The token vault (`src/unnamed/part_001`)

`EncryptToken`/`DecryptToken` are in the source; the primitives they call
(`crypto/aes` + `cipher.NewGCM`, `encoding/base64`, `crypto/rand`) are
standard-library code outside the repository.  Base64 is embedded in
full; the AEAD is idealized per the spec's contract. -/

/-- The standard base64 alphabet of `encoding/base64.StdEncoding`. -/
def b64Alphabet : List Char :=
  "ABCDEFGHIJKLMNOPQRSTUVWXYZabcdefghijklmnopqrstuvwxyz0123456789+/".toList

/-- The alphabet character of a six-bit group. -/
def sextetToChar (s : Nat) : Char := b64Alphabet.getD s '?'

/-- Position of a character in a character list. -/
def charIdx (c : Char) : List Char → Option Nat
  | [] => none
  | a :: rest => if a = c then some 0 else (charIdx c rest).map (· + 1)

/-- The six-bit value of an alphabet character (`none` for characters
outside the alphabet). -/
def charToSextet (c : Char) : Option Nat := charIdx c b64Alphabet

/-- Go's `base64.StdEncoding.EncodeToString`: three bytes become four alphabet
characters; a final group of one or two bytes is padded with `=`. -/
def b64encode : List Nat → List Char
  | [] => []
  | [b0] => [sextetToChar (b0 / 4), sextetToChar (b0 % 4 * 16), '=', '=']
  | [b0, b1] =>
    [sextetToChar (b0 / 4), sextetToChar (b0 % 4 * 16 + b1 / 16),
      sextetToChar (b1 % 16 * 4), '=']
  | b0 :: b1 :: b2 :: rest =>
    sextetToChar (b0 / 4) :: sextetToChar (b0 % 4 * 16 + b1 / 16) ::
      sextetToChar (b1 % 16 * 4 + b2 / 64) :: sextetToChar (b2 % 64) :: b64encode rest

/-- Go's `base64.StdEncoding.DecodeString` on the encodings `b64encode`
produces: four characters at a time, honouring `=` padding in the final
quadruple only. -/
def b64decode : List Char → Option (List Nat)
  | [] => some []
  | x :: y :: z :: w :: rest =>
    match charToSextet x, charToSextet y with
    | some sx, some sy =>
      if z = '=' then
        if w = '=' ∧ rest = [] then some [sx * 4 + sy / 16] else none
      else
        match charToSextet z with
        | some sz =>
          if w = '=' then
            if rest = [] then some [sx * 4 + sy / 16, sy % 16 * 16 + sz / 4] else none
          else
            match charToSextet w with
            | some sw =>
              (b64decode rest).map
                (fun tail => (sx * 4 + sy / 16) :: (sy % 16 * 16 + sz / 4) ::
                  (sz % 4 * 64 + sw) :: tail)
            | none => none
        | none => none
    | _, _ => none
  | _ => none

/-- The value `gcm.NonceSize()` for `cipher.NewGCM` over AES. -/
def gcmNonceSize : Nat := 12

/-- Modelled from the spec: the AEAD seal of §4.1/§6 (`gcm.Seal`, standard
library, not in src).  Idealized: the payload carries the plaintext and
an authentication tag that verification accepts exactly under the sealing
key; confidentiality is not modelled, only the functional contract
`decrypt(seal(k, p), k) = p` and tag rejection under any other key. -/
def gcmSeal (key _nonce plain : List Nat) : List Nat := plain ++ key

/-- Modelled from the spec: the AEAD open of §4.1 (`gcm.Open`): split off
the trailing tag and accept iff it verifies under the given key. -/
def gcmOpen (key _nonce data : List Nat) : Option (List Nat) :=
  if data.length < 32 then none
  else if data.drop (data.length - 32) = key then some (data.take (data.length - 32))
  else none

/-- The function `EncryptToken` (`src/unnamed/part_001`, lines 12-30): seal the token
under a fresh 12-byte nonce, place the nonce in front, base64 the whole.
The nonce (read from `crypto/rand`) is an explicit argument.  The key
must be 32 bytes (spec §4.1: 256-bit key; `aes.NewCipher` rejects other
AES-GCM-incompatible lengths). -/
def EncryptToken (token key nonce : List Nat) : Except (List Char) (List Char) :=
  if key.length ≠ 32 then .error "crypto/aes: invalid key size".toList
  else .ok (b64encode (nonce ++ gcmSeal key nonce token))

/-- The function `DecryptToken` (`src/unnamed/part_001`, lines 32-60): base64-decode,
split the 12-byte nonce off the front (erroring when the data is
shorter), then open the remainder under the key. -/
def DecryptToken (ciphertext : List Char) (key : List Nat) : Except (List Char) (List Nat) :=
  match b64decode ciphertext with
  | none => .error "illegal base64 data".toList
  | some data =>
    if key.length ≠ 32 then .error "crypto/aes: invalid key size".toList
    else if data.length < gcmNonceSize then .error "ciphertext too short".toList
    else
      match gcmOpen key (data.take gcmNonceSize) (data.drop gcmNonceSize) with
      | some plain => .ok plain
      | none => .error "cipher: message authentication failed".toList

/-! ### Lemmas on the scan-all trackers -/

/-- Folding `updLatest` from a candidate newer than everything in the list
leaves the candidate in place. -/
lemma foldl_updLatest_newer (p : BlacklistEntry → Bool) (l : List BlacklistEntry)
    (c : BlacklistEntry) (h : ∀ e ∈ l, e.createdAt < c.createdAt) :
    l.foldl (updLatest p) (some c) = some c := by
  induction l with
  | nil => rfl
  | cons e t ih =>
    have he : e.createdAt < c.createdAt := h e (List.mem_cons_self e t)
    have hstep : updLatest p (some c) e = some c := by
      unfold updLatest
      by_cases hp : p e
      · simp [hp, Nat.not_lt.mpr (Nat.le_of_lt he)]
      · simp [hp]
    rw [List.foldl_cons, hstep]
    exact ih (fun x hx => h x (List.mem_cons_of_mem e hx))

/-- On a store sorted newest-first, folding `updLatest` from `none` finds
the first (i.e. the most recent) entry satisfying the predicate. -/
lemma foldl_updLatest_sorted (p : BlacklistEntry → Bool) (l : List BlacklistEntry)
    (h : StoreSorted l) : l.foldl (updLatest p) none = l.find? p := by
  induction l with
  | nil => rfl
  | cons e t ih =>
    rcases List.pairwise_cons.mp h with ⟨hnewer, htail⟩
    by_cases hp : p e
    · have hstep : updLatest p none e = some e := by simp [updLatest, hp]
      rw [List.foldl_cons, hstep, foldl_updLatest_newer p t e hnewer]
      simp [List.find?, hp]
    · have hstep : updLatest p none e = none := by simp [updLatest, hp]
      rw [List.foldl_cons, hstep, ih htail]
      simp [List.find?, hp]

/-- The simultaneous fold of the scan-all loop, from any starting pair, is
componentwise the two single-tracker folds. -/
lemma scanTrackers_aux (l : List BlacklistEntry) :
    ∀ a b : Option BlacklistEntry,
      l.foldl
        (fun acc bl => (updLatest isApprovedUnban acc.1 bl, updLatest isActiveBan acc.2 bl))
        (a, b)
      = (l.foldl (updLatest isApprovedUnban) a, l.foldl (updLatest isActiveBan) b) := by
  induction l with
  | nil => intro a b; rfl
  | cons e t ih => intro a b; exact ih _ _

/-- The simultaneous fold of the scan-all loop is componentwise the two
single-tracker folds. -/
lemma scanTrackers_eq_foldl (l : List BlacklistEntry) :
    scanTrackers l =
      (l.foldl (updLatest isApprovedUnban) none, l.foldl (updLatest isActiveBan) none) :=
  scanTrackers_aux l none none

/-- On a sorted store the scan-all trackers are the first approved unban
and the first active ban. -/
lemma scanTrackers_sorted (l : List BlacklistEntry) (h : StoreSorted l) :
    scanTrackers l = (l.find? isApprovedUnban, l.find? isActiveBan) := by
  rw [scanTrackers_eq_foldl, foldl_updLatest_sorted _ _ h, foldl_updLatest_sorted _ _ h]

/-! ### Claim C1 -/

/-- C1: for every (bot, guest) pair — i.e. every guest-row presence flag
and every store of non-deleted entries ordered newest first —
`IsBlacklisted` (latest-entry version) returns exactly the spec's decision
table applied to the most recent entry: `true` for a ban with status
approved/pending and for an unban with status pending/rejected, `false`
for a rejected ban, an approved unban, and when no entry or no guest row
exists. -/
theorem isBlacklistedLatest_matches_spec_table (g : Bool) (l : List BlacklistEntry) :
    isBlacklistedLatest g l = specBlacklistTable (if g then l.head? else none) := by
  cases g with
  | false => simp [isBlacklistedLatest, specBlacklistTable]
  | true =>
    cases l with
    | nil => simp [isBlacklistedLatest, specBlacklistTable]
    | cons e t =>
      rcases e with ⟨rt, st, c⟩
      cases rt <;> cases st <;> simp [isBlacklistedLatest, specBlacklistTable]

/-! ### Claim C2 -/

/-- C2 fails as stated: on the store holding the single entry
(unban, pending), the latest-entry version reports blacklisted (a pending
unban keeps the guest blocked) while the scan-all version reports not
blacklisted (it sees neither an active ban nor an approved unban).  The
two definitions of `IsBlacklisted` therefore do not compute the same
boolean for every finite set of entries. -/
theorem isBlacklisted_versions_differ :
    isBlacklistedScan true [⟨.unban, .pending, 0⟩]
      ≠ isBlacklistedLatest true [⟨.unban, .pending, 0⟩] := by
  decide

/-- C2 amended: the two versions of `IsBlacklisted` agree on every sorted
store that is empty or whose most recent entry is an active (approved or
pending) ban or an approved unban; they can differ only when the latest
entry is a pending or rejected unban, or a rejected ban. -/
theorem isBlacklisted_versions_agree_on_decided_latest (g : Bool)
    (l : List BlacklistEntry) (hs : StoreSorted l)
    (h : l = [] ∨ ∃ e t, l = e :: t ∧ (isActiveBan e = true ∨ isApprovedUnban e = true)) :
    isBlacklistedScan g l = isBlacklistedLatest g l := by
  cases g with
  | false => simp [isBlacklistedScan, isBlacklistedLatest]
  | true =>
    rcases h with rfl | ⟨e, t, rfl, hcase⟩
    · simp [isBlacklistedScan, isBlacklistedLatest]
    · have hnewer : ∀ x ∈ t, x.createdAt < e.createdAt :=
        (List.pairwise_cons.mp hs).1
      rcases hcase with hab | hau
      · -- most recent entry is an active ban: both versions say blacklisted
        have hnotu : isApprovedUnban e = false := by
          rcases e with ⟨rt, st, c⟩
          cases rt <;> cases st <;> simp_all [isActiveBan, isApprovedUnban]
        have htrack : scanTrackers (e :: t) = (t.find? isApprovedUnban, some e) := by
          rw [scanTrackers_sorted _ hs, List.find?_cons_of_neg _ (by simp [hnotu]),
            List.find?_cons_of_pos _ hab]
        have hlatest : isBlacklistedLatest true (e :: t) = true := by
          rcases e with ⟨rt, st, c⟩
          cases rt <;> cases st <;> simp_all [isBlacklistedLatest, isActiveBan]
        rw [hlatest]
        unfold isBlacklistedScan
        rw [htrack]
        rcases hu : t.find? isApprovedUnban with _ | uu
        · simp
        · have huu : uu ∈ t := List.mem_of_find?_eq_some hu
          have : uu.createdAt < e.createdAt := hnewer uu huu
          simp [Nat.not_lt.mpr (Nat.le_of_lt this)]
      · -- most recent entry is an approved unban: both versions say clear
        have hnotb : isActiveBan e = false := by
          rcases e with ⟨rt, st, c⟩
          cases rt <;> cases st <;> simp_all [isActiveBan, isApprovedUnban]
        have htrack : scanTrackers (e :: t) = (some e, t.find? isActiveBan) := by
          rw [scanTrackers_sorted _ hs, List.find?_cons_of_pos _ hau,
            List.find?_cons_of_neg _ (by simp [hnotb])]
        have hlatest : isBlacklistedLatest true (e :: t) = false := by
          rcases e with ⟨rt, st, c⟩
          cases rt <;> cases st <;> simp_all [isBlacklistedLatest, isApprovedUnban]
        rw [hlatest]
        unfold isBlacklistedScan
        rw [htrack]
        rcases hb : t.find? isActiveBan with _ | bb
        · simp
        · have hbb : bb ∈ t := List.mem_of_find?_eq_some hb
          have : bb.createdAt < e.createdAt := hnewer bb hbb
          simp [this]

/-- Witness for the amended C2 at a concrete store. -/
theorem isBlacklisted_versions_agree_witness :
    isBlacklistedScan true [⟨.ban, .approved, 0⟩]
      = isBlacklistedLatest true [⟨.ban, .approved, 0⟩] :=
  isBlacklisted_versions_agree_on_decided_latest true [⟨.ban, .approved, 0⟩]
    (by simp [StoreSorted]) (Or.inr ⟨⟨.ban, .approved, 0⟩, [], rfl, Or.inl (by decide)⟩)

/-! ### Claim C4 -/

/-- C4: `CreateBanRequest` creates a pending ban row exactly when the
spec's ban gate admits it (no prior entry, or latest is a pending/rejected
ban or an approved unban) and otherwise errors leaving the store
untouched; `CreateUnbanRequest` creates a pending unban row exactly when
the spec's unban gate admits it (no prior entry, or latest is an approved
ban or a pending/rejected unban) and otherwise errors leaving the store
untouched. -/
theorem createRequests_match_spec_gates (now : Nat) (l : List BlacklistEntry) :
    (specBanGate l.head? = true →
      createBanRequest now l = (⟨.ban, .pending, now⟩ :: l, .ok ⟨.ban, .pending, now⟩))
    ∧ (specBanGate l.head? = false →
      createBanRequest now l
        = (l, .error "cannot trigger ban: latest state does not allow ban request"))
    ∧ (specUnbanGate l.head? = true →
      createUnbanRequest now l
        = (⟨.unban, .pending, now⟩ :: l, .ok ⟨.unban, .pending, now⟩))
    ∧ (specUnbanGate l.head? = false →
      createUnbanRequest now l
        = (l, .error "cannot trigger unban: latest state does not allow unban request")) := by
  rcases l with _ | ⟨⟨rt, st, c⟩, t⟩
  · simp [createBanRequest, createUnbanRequest, specBanGate, specUnbanGate]
  · cases rt <;> cases st <;>
      simp [createBanRequest, createUnbanRequest, canTriggerBan, canTriggerUnban,
        specBanGate, specUnbanGate]

/-- Witness for C4 at concrete stores: creation on an empty store and
refusal on a store whose latest entry is an approved ban. -/
theorem createRequests_match_spec_gates_witness :
    (specBanGate ([] : List BlacklistEntry).head? = true ∧
      createBanRequest 5 [] = ([⟨.ban, .pending, 5⟩], .ok ⟨.ban, .pending, 5⟩))
    ∧ (specBanGate ([⟨.ban, .approved, 0⟩] : List BlacklistEntry).head? = false ∧
      createBanRequest 7 [⟨.ban, .approved, 0⟩]
        = ([⟨.ban, .approved, 0⟩],
            .error "cannot trigger ban: latest state does not allow ban request")) :=
  ⟨⟨rfl, (createRequests_match_spec_gates 5 []).1 rfl⟩,
    ⟨rfl, (createRequests_match_spec_gates 7 [⟨.ban, .approved, 0⟩]).2.1 rfl⟩⟩

/-! ### Lemmas on the retry loop -/

/-- The retry loop performs at most `fuel` further invocations of `fn`. -/
lemma retryAux_calls_le (o : Nat → Option GoError) :
    ∀ fuel i last, (retryAux o fuel i last).calls ≤ i + fuel := by
  intro fuel
  induction fuel with
  | zero => intro i last; cases last <;> simp [retryAux]
  | succ f ih =>
    intro i last
    cases h : o i with
    | none => simp [retryAux, h]
    | some e =>
      by_cases hr : isRetryableError e
      · have := ih (i + 1) (some e)
        simp [retryAux, h, hr]
        omega
      · simp [retryAux, h, hr]

/-- If the first `k` invocations from index `i` fail retryably and the
`k`-th fails non-retryably within the remaining fuel, the loop stops
right there, returning that error after exactly `k + 1` further calls. -/
lemma retryAux_stops_nonretryable (o : Nat → Option GoError) :
    ∀ fuel i last k e, k < fuel →
      (∀ j, j < k → ∃ e', o (i + j) = some e' ∧ isRetryableError e' = true) →
      o (i + k) = some e → isRetryableError e = false →
      retryAux o fuel i last = ⟨i + k + 1, some e⟩ := by
  intro fuel
  induction fuel with
  | zero => intro i last k e hk; omega
  | succ f ih =>
    intro i last k e hk hall hout hnr
    cases k with
    | zero =>
      rw [Nat.add_zero] at hout
      simp [retryAux, hout, hnr]
    | succ k' =>
      obtain ⟨e0, he0, hr0⟩ := hall 0 (Nat.succ_pos k')
      rw [Nat.add_zero] at he0
      have hstep : retryAux o (f + 1) i last = retryAux o f (i + 1) (some e0) := by
        simp [retryAux, he0, hr0]
      rw [hstep]
      have hall' : ∀ j, j < k' → ∃ e', o (i + 1 + j) = some e' ∧ isRetryableError e' = true := by
        intro j hj
        have := hall (j + 1) (by omega)
        rwa [show i + (j + 1) = i + 1 + j by omega] at this
      have hout' : o (i + 1 + k') = some e := by
        rwa [show i + 1 + k' = i + (k' + 1) by omega]
      have := ih (i + 1) (some e0) k' e (by omega) hall' hout' hnr
      rw [this]
      congr 1
      omega

/-- If every invocation within the fuel fails retryably, the loop exhausts
all attempts and returns the wrapped last error. -/
lemma retryAux_exhausts (o : Nat → Option GoError) :
    ∀ fuel i last, 1 ≤ fuel →
      (∀ j, j < fuel → ∃ e', o (i + j) = some e' ∧ isRetryableError e' = true) →
      ∃ e, o (i + (fuel - 1)) = some e ∧
        retryAux o fuel i last = ⟨i + fuel, some (.wrap "max retries exceeded: ".toList e)⟩ := by
  intro fuel
  induction fuel with
  | zero => intro i last h; omega
  | succ f ih =>
    intro i last _ hall
    obtain ⟨e0, he0, hr0⟩ := hall 0 (Nat.succ_pos f)
    rw [Nat.add_zero] at he0
    have hstep : retryAux o (f + 1) i last = retryAux o f (i + 1) (some e0) := by
      simp [retryAux, he0, hr0]
    cases f with
    | zero =>
      refine ⟨e0, by simpa using he0, ?_⟩
      rw [hstep]
      simp [retryAux]
    | succ f' =>
      have hall' : ∀ j, j < f' + 1 → ∃ e', o (i + 1 + j) = some e' ∧ isRetryableError e' = true := by
        intro j hj
        have := hall (j + 1) (by omega)
        rwa [show i + (j + 1) = i + 1 + j by omega] at this
      obtain ⟨e, he, hres⟩ := ih (i + 1) (some e0) (Nat.succ_pos f') hall'
      refine ⟨e, ?_, ?_⟩
      · rwa [show i + (f' + 1 + 1 - 1) = i + 1 + (f' + 1 - 1) by omega]
      · rw [hstep, hres]
        congr 1
        omega

/-- The substring classification of plain errors, as one equality. -/
lemma isRetryableError_str (m : List Char) :
    isRetryableError (.str m) =
      (containsCl "429".toList m || containsCl "Too Many Requests".toList m
        || containsCl "500".toList m || containsCl "502".toList m
        || containsCl "503".toList m || containsCl "504".toList m) := by
  simp only [isRetryableError, asNetError, errMsg]
  simp [Bool.or_assoc]

/-! ### Claim C5 -/

/-- C5 fails as stated: the claim classifies every HTTP 5xx as retryable,
but `isRetryableError` only matches the substrings 500/502/503/504, so an
HTTP 501 error is treated as non-retryable. -/
theorem isRetryableError_misses_501 :
    isRetryableError (.str "telegram: 501 Not Implemented".toList) = false := by
  decide

/-- C5 amended: `Retry` invokes `fn` at most `max_attempts` times; a
non-retryable error (after any run of retryable ones) is returned
immediately, with no further attempts; when every attempt fails retryably
the wrapped "max retries exceeded" error preserving the last original
error is returned after exactly `max_attempts` calls; a `net.Error` is
retryable iff it is a timeout or temporary; and a plain error is
retryable iff its text contains `429`, `Too Many Requests`, `500`, `502`,
`503` or `504` — not every 5xx status. -/
theorem Retry_bounded_and_classified (maxAttempts : Nat) (o : Nat → Option GoError) :
    (Retry maxAttempts o).calls ≤ maxAttempts
    ∧ (∀ k e, k < maxAttempts →
        (∀ j, j < k → ∃ e', o j = some e' ∧ isRetryableError e' = true) →
        o k = some e → isRetryableError e = false →
        Retry maxAttempts o = ⟨k + 1, some e⟩)
    ∧ (1 ≤ maxAttempts →
        (∀ j, j < maxAttempts → ∃ e', o j = some e' ∧ isRetryableError e' = true) →
        ∃ e, o (maxAttempts - 1) = some e ∧
          Retry maxAttempts o
            = ⟨maxAttempts, some (.wrap "max retries exceeded: ".toList e)⟩)
    ∧ (∀ t tm m, isRetryableError (.net t tm m) = (t || tm))
    ∧ (∀ m, isRetryableError (.str m) =
        (containsCl "429".toList m || containsCl "Too Many Requests".toList m
          || containsCl "500".toList m || containsCl "502".toList m
          || containsCl "503".toList m || containsCl "504".toList m)) := by
  refine ⟨?_, ?_, ?_, ?_, ?_⟩
  · simpa using retryAux_calls_le o maxAttempts 0 none
  · intro k e hk hall hout hnr
    have := retryAux_stops_nonretryable o maxAttempts 0 none k e hk
      (by simpa using hall) (by simpa using hout) hnr
    simpa [Retry] using this
  · intro hpos hall
    have := retryAux_exhausts o maxAttempts 0 none hpos (by simpa using hall)
    simpa [Retry] using this
  · intro t tm m
    simp [isRetryableError, asNetError]
  · exact isRetryableError_str

/-- Witness for the amended C5: two retryable timeouts exhaust
`max_attempts = 2` and surface the wrapped original error. -/
theorem Retry_bounded_and_classified_witness :
    ∃ e, (fun _ => some (GoError.net true false [])) (2 - 1) = some e ∧
      Retry 2 (fun _ => some (GoError.net true false []))
        = ⟨2, some (.wrap "max retries exceeded: ".toList e)⟩ :=
  (Retry_bounded_and_classified 2 (fun _ => some (GoError.net true false []))).2.2.1
    (by omega) (fun j _ => ⟨GoError.net true false [], rfl, by decide⟩)

/-! ### Claim C7 -/

/-- C7: a non-command, non-reply message from a guest whose blacklist
check comes back `true` is dropped: `HandleMessage` returns without
running the fan-out, so no forward is attempted and the mapping store is
untouched, whatever the fan-out would have done. -/
theorem handleMessage_drops_blacklisted (text : List Char) (isReply : Bool)
    (g : Bool) (l : List BlacklistEntry)
    (fanout : List MessageMapping → List MessageMapping) (store : List MessageMapping)
    (hcmd : text = [] ∨ leadMatch "/".toList text = false)
    (hrep : isReply = false)
    (hbl : isBlacklistedLatest g l = true) :
    handleMessageStore text isReply (.ok (isBlacklistedLatest g l)) fanout store
      = (.dropped, store) := by
  rw [hbl]
  unfold handleMessageStore handleMessageAction
  rcases hcmd with rfl | hcmd
  · simp [hrep, leadMatch]
  · have hcmd' : leadMatch ['/'] text = false := hcmd
    simp [hrep, hcmd']

/-- Witness for C7: a plain text message while the latest entry is a
pending ban. -/
theorem handleMessage_drops_blacklisted_witness :
    handleMessageStore "hello".toList false
        (.ok (isBlacklistedLatest true [⟨.ban, .pending, 0⟩]))
        (fun s => ⟨1, 2, 3, 4, .inbound⟩ :: s) ([] : List MessageMapping)
      = (.dropped, []) :=
  handleMessage_drops_blacklisted "hello".toList false true [⟨.ban, .pending, 0⟩]
    (fun s => ⟨1, 2, 3, 4, .inbound⟩ :: s) [] (Or.inr (by decide)) rfl (by decide)

/-! ### Claim C10 -/

/-- The merge preserves the result-accounting invariants. -/
lemma foldl_mergeOutcome_accounts :
    ∀ (l : List RecipientOutcome) (r : ForwardResult),
      ((l.foldl mergeOutcome r).SuccessCount + (l.foldl mergeOutcome r).FailureCount
        = r.SuccessCount + r.FailureCount + l.length)
      ∧ ((l.foldl mergeOutcome r).Errors.length + r.FailureCount
        = r.Errors.length + (l.foldl mergeOutcome r).FailureCount) := by
  intro l
  induction l with
  | nil => intro r; simp
  | cons oc t ih =>
    intro r
    have := ih (mergeOutcome r oc)
    cases oc <;> simp [mergeOutcome] at this ⊢ <;> omega

/-- C10: every non-error `ForwardToRecipients` result accounts for each
loaded recipient exactly once — successes plus failures equal the number
of recipients, the `Errors` slice has one entry per failure, and an empty
recipient list yields the zero result with no errors. -/
theorem ForwardToRecipients_accounts (outcomes : List RecipientOutcome) :
    ((ForwardToRecipients outcomes).SuccessCount
        + (ForwardToRecipients outcomes).FailureCount = outcomes.length)
    ∧ ((ForwardToRecipients outcomes).Errors.length
        = (ForwardToRecipients outcomes).FailureCount)
    ∧ (outcomes = [] → ForwardToRecipients outcomes = ⟨0, 0, []⟩) := by
  rcases outcomes with _ | ⟨oc, t⟩
  · refine ⟨by simp [ForwardToRecipients], by simp [ForwardToRecipients], fun _ => rfl⟩
  · have h := foldl_mergeOutcome_accounts (oc :: t) ⟨0, 0, []⟩
    refine ⟨?_, ?_, by simp⟩
    · simpa [ForwardToRecipients] using h.1
    · have h2 := h.2
      simp only [List.length_nil, Nat.add_zero, Nat.zero_add] at h2
      simpa [ForwardToRecipients] using h2

/-- Witness for C10's empty-list implication. -/
theorem ForwardToRecipients_accounts_witness :
    ForwardToRecipients [] = ⟨0, 0, []⟩ :=
  (ForwardToRecipients_accounts []).2.2 rfl

/-! ### Claim C3 -/

/-- C3 fails as stated: when the external forward succeeds but the
mapping-store insert fails, `forwardMessage` swallows the insert error
(logging only) and still reports success, so a forward reported as a
success can lack its mapping row. -/
theorem forward_success_without_mapping :
    (forwardMessage (.ok 5) false 1 2 3 []).2 = none
    ∧ ((forwardMessage (.ok 5) false 1 2 3 []).1).length = 0 := by
  decide

/-- C3 amended: mapping rows are written only after the external forward
for them has succeeded (never speculatively), a failed forward writes
nothing, and a successful forward whose mapping-store insert also
succeeds writes exactly one row — inbound for the fan-out attempt,
outbound for the reply attempt.  When the insert fails the success is
still reported with no row (the counterexample above). -/
theorem mappings_only_from_successful_forwards
    (apiResult : Except GoError Int) (createOk : Bool) (g gm rc : Int)
    (store : List MessageMapping)
    (apiError : Option GoError) (createOk2 : Bool) (m : MessageMapping)
    (rc2 rm2 : Int) (store2 : List MessageMapping) :
    ((forwardMessage apiResult createOk g gm rc store).1 = store
      ∨ ∃ mid, apiResult = .ok mid
          ∧ (forwardMessage apiResult createOk g gm rc store).1
              = ⟨g, gm, rc, mid, .inbound⟩ :: store)
    ∧ (∀ e, apiResult = .error e →
        forwardMessage apiResult createOk g gm rc store
          = (store, some (.wrap "failed to forward message: ".toList e)))
    ∧ (∀ mid, apiResult = .ok mid → createOk = true →
        forwardMessage apiResult createOk g gm rc store
          = (⟨g, gm, rc, mid, .inbound⟩ :: store, none))
    ∧ ((replyForwardAttempt apiError createOk2 m rc2 rm2 store2).1 = store2
      ∨ (apiError = none
          ∧ (replyForwardAttempt apiError createOk2 m rc2 rm2 store2).1
              = ⟨m.guestChatID, m.guestMessageID, rc2, rm2, .outbound⟩ :: store2))
    ∧ (∀ e, apiError = some e →
        replyForwardAttempt apiError createOk2 m rc2 rm2 store2
          = (store2, some (.wrap "failed to forward reply: ".toList e)))
    ∧ (apiError = none → createOk2 = true →
        replyForwardAttempt apiError createOk2 m rc2 rm2 store2
          = (⟨m.guestChatID, m.guestMessageID, rc2, rm2, .outbound⟩ :: store2, none)) := by
  refine ⟨?_, ?_, ?_, ?_, ?_, ?_⟩
  · rcases apiResult with e | mid
    · left; simp [forwardMessage]
    · cases createOk
      · left; simp [forwardMessage]
      · right; exact ⟨mid, rfl, by simp [forwardMessage]⟩
  · rintro e rfl; simp [forwardMessage]
  · rintro mid rfl rfl; simp [forwardMessage]
  · rcases apiError with _ | e
    · cases createOk2
      · left; simp [replyForwardAttempt]
      · right; exact ⟨rfl, by simp [replyForwardAttempt]⟩
    · left; simp [replyForwardAttempt]
  · rintro e rfl; simp [replyForwardAttempt]
  · rintro rfl rfl; simp [replyForwardAttempt]

/-- Witness for the amended C3: a successful forward with a successful
insert writes exactly the one inbound row. -/
theorem mappings_only_from_successful_forwards_witness :
    forwardMessage (.ok 9) true 1 2 3 [] = ([⟨1, 2, 3, 9, .inbound⟩], none) :=
  (mappings_only_from_successful_forwards (.ok 9) true 1 2 3 []
    none true ⟨1, 2, 3, 9, .inbound⟩ 3 4 []).2.2.1 9 rfl rfl

/-! ### Claim C9 -/

/-- C9 fails as stated: a guest whose latest entry is a *pending ban* is
blacklisted, yet the self-unban request is not opened — the transition
gate refuses it (a pending ban admits no unban request) and no entry is
created. -/
theorem handleUnbanSelf_pending_ban_refused :
    isBlacklistedLatest true [⟨.ban, .pending, 0⟩] = true
    ∧ handleUnbanSelf 7 true [⟨.ban, .pending, 0⟩] 1
        = (.createFailed, [⟨.ban, .pending, 0⟩]) := by
  decide

/-- C9 amended: on `/unban` without reply the handler first evaluates
`IsBlacklisted` for the calling guest; if it returns false the request is
refused with "not blacklisted" and no entry is created; if it returns
true the handler attempts to open an unban request with the guest as both
subject and requesting user — the pending unban row is created exactly
when the transition gate admits it (latest entry an approved ban or a
pending/rejected unban), and refused with no entry when the latest entry
is a pending ban. -/
theorem handleUnbanSelf_checks_then_gates (uid : Int) (g : Bool)
    (l : List BlacklistEntry) (now : Nat) :
    (isBlacklistedLatest g l = false →
      handleUnbanSelf uid g l now = (.notBlacklisted, l))
    ∧ (isBlacklistedLatest g l = true → specUnbanGate l.head? = true →
        handleUnbanSelf uid g l now
          = (.requested uid uid ⟨.unban, .pending, now⟩, ⟨.unban, .pending, now⟩ :: l))
    ∧ (isBlacklistedLatest g l = true → specUnbanGate l.head? = false →
        handleUnbanSelf uid g l now = (.createFailed, l)) := by
  cases g with
  | false =>
    refine ⟨fun _ => ?_, fun h _ => ?_, fun h _ => ?_⟩
    · simp [handleUnbanSelf, isBlacklistedLatest]
    · simp [isBlacklistedLatest] at h
    · simp [isBlacklistedLatest] at h
  | true =>
    rcases l with _ | ⟨⟨rt, st, c⟩, t⟩
    · refine ⟨fun _ => ?_, fun h _ => ?_, fun h _ => ?_⟩
      · simp [handleUnbanSelf, isBlacklistedLatest]
      · simp [isBlacklistedLatest] at h
      · simp [isBlacklistedLatest] at h
    · cases rt <;> cases st <;>
        simp [handleUnbanSelf, isBlacklistedLatest, specUnbanGate,
          createUnbanRequest, canTriggerUnban]

/-! ### Lemmas on the token-bucket limiter -/

/-- Unfolding of one limiter step on an existing bucket. -/
lemma allowWithMemory_some_eq (limit : ℕ) (t : ℚ) (b : TokenBucket) :
    allowWithMemory limit t (some b)
      = if 1 ≤ min b.capacity (b.tokens + (t - b.lastUpdate) * b.rate)
        then (true, ⟨min b.capacity (b.tokens + (t - b.lastUpdate) * b.rate) - 1,
              t, b.capacity, b.rate⟩)
        else (false, ⟨min b.capacity (b.tokens + (t - b.lastUpdate) * b.rate),
              t, b.capacity, b.rate⟩) := rfl

/-- The first call creates the bucket full at the call instant, which acts
exactly like a stored full bucket with `lastUpdate` equal to that
instant. -/
lemma allowWithMemory_none_eq (limit : ℕ) (t : ℚ) :
    allowWithMemory limit t none
      = allowWithMemory limit t
          (some ⟨(limit : ℚ), t, (limit : ℚ), (limit : ℚ)⟩) := rfl

/-- Calls whose instants all lie outside the window contribute no allowed
results in the window, from any bucket state. -/
lemma countAllowedIn_zero_of_outside (limit : ℕ) (a : ℚ) :
    ∀ (ts : List ℚ) (stored : Option TokenBucket),
      (∀ x ∈ ts, ¬(a ≤ x ∧ x ≤ a + 1)) →
      countAllowedIn a (runLimiter limit stored ts) = 0 := by
  intro ts
  induction ts with
  | nil => intro stored _; rfl
  | cons t ts ih =>
    intro stored hout
    have hth : ¬(a ≤ t ∧ t ≤ a + 1) := hout t (List.mem_cons_self t ts)
    have hrest := ih (some (allowWithMemory limit t stored).2)
      (fun x hx => hout x (List.mem_cons_of_mem t hx))
    simp only [runLimiter, countAllowedIn, hrest, Nat.add_zero]
    split
    · rename_i hcond
      exact absurd ⟨hcond.1, hcond.2.1⟩ hth
    · rfl

/-- Inside the window: starting from a bucket whose last update already
lies in `[a, a+1]`, the allowed calls of the run are bounded by the
bucket's tokens plus what the remaining window can refill. -/
lemma countAllowedIn_window_le (limit : ℕ) (a : ℚ) :
    ∀ (ts : List ℚ) (b : TokenBucket),
      b.capacity = (limit : ℚ) → b.rate = (limit : ℚ) →
      0 ≤ b.tokens → a ≤ b.lastUpdate → b.lastUpdate ≤ a + 1 →
      ts.Pairwise (· ≤ ·) → (∀ x ∈ ts, b.lastUpdate ≤ x) →
      (countAllowedIn a (runLimiter limit (some b) ts) : ℚ)
        ≤ b.tokens + (a + 1 - b.lastUpdate) * limit := by
  intro ts
  induction ts with
  | nil =>
    intro b _ _ ht ha hb _ _
    have h1 : 0 ≤ (a + 1 - b.lastUpdate) * (limit : ℚ) :=
      mul_nonneg (by linarith) (by positivity)
    simp only [runLimiter, countAllowedIn, Nat.cast_zero]
    linarith
  | cons t ts ih =>
    intro b hc hr ht ha hb hpw hle
    have hbt : b.lastUpdate ≤ t := hle t (List.mem_cons_self t ts)
    rcases List.pairwise_cons.mp hpw with ⟨hhead, htail⟩
    have hL0 : (0 : ℚ) ≤ (limit : ℚ) := by positivity
    have hR0 : 0 ≤ min b.capacity (b.tokens + (t - b.lastUpdate) * b.rate) := by
      refine le_min (by rw [hc]; positivity) ?_
      have : 0 ≤ (t - b.lastUpdate) * b.rate := mul_nonneg (by linarith) (by rw [hr]; positivity)
      linarith
    have hRle : min b.capacity (b.tokens + (t - b.lastUpdate) * b.rate)
        ≤ b.tokens + (t - b.lastUpdate) * (limit : ℚ) := by
      rw [← hr]; exact min_le_right _ _
    by_cases hta : t ≤ a + 1
    · have hat : a ≤ t := le_trans ha hbt
      have hfin : (a + 1 - t) * (limit : ℚ) + (t - b.lastUpdate) * (limit : ℚ)
          = (a + 1 - b.lastUpdate) * (limit : ℚ) := by ring
      by_cases hal : 1 ≤ min b.capacity (b.tokens + (t - b.lastUpdate) * b.rate)
      · -- allowed: one token consumed
        have hrun : runLimiter limit (some b) (t :: ts)
            = (t, true) :: runLimiter limit
                (some ⟨min b.capacity (b.tokens + (t - b.lastUpdate) * b.rate) - 1,
                  t, b.capacity, b.rate⟩) ts := by
          simp [runLimiter, allowWithMemory_some_eq, hal]
        have ht0 : (0 : ℚ) ≤ min b.capacity (b.tokens + (t - b.lastUpdate) * b.rate) - 1 := by
          linarith
        have hrest := ih ⟨min b.capacity (b.tokens + (t - b.lastUpdate) * b.rate) - 1,
            t, b.capacity, b.rate⟩ hc hr ht0 hat hta htail hhead
        simp only at hrest
        rw [hrun]
        simp [countAllowedIn, hat, hta]
        linarith
      · -- denied: tokens unchanged after refill
        have hrun : runLimiter limit (some b) (t :: ts)
            = (t, false) :: runLimiter limit
                (some ⟨min b.capacity (b.tokens + (t - b.lastUpdate) * b.rate),
                  t, b.capacity, b.rate⟩) ts := by
          simp [runLimiter, allowWithMemory_some_eq, hal]
        have hrest := ih ⟨min b.capacity (b.tokens + (t - b.lastUpdate) * b.rate),
            t, b.capacity, b.rate⟩ hc hr hR0 hat hta htail hhead
        simp only at hrest
        rw [hrun]
        simp [countAllowedIn]
        linarith
    · -- the call and all later ones are past the window
      have hzero : countAllowedIn a (runLimiter limit (some b) (t :: ts)) = 0 := by
        refine countAllowedIn_zero_of_outside limit a (t :: ts) (some b) ?_
        intro x hx
        rcases List.mem_cons.mp hx with rfl | hx
        · exact fun hcon => hta hcon.2
        · have : t ≤ x := hhead x hx
          exact fun hcon => hta (le_trans this hcon.2)
      rw [hzero]
      have h1 : 0 ≤ (a + 1 - b.lastUpdate) * (limit : ℚ) :=
        mul_nonneg (by linarith) hL0
      push_cast
      linarith

/-- From the empty limiter (any reachable bucket state), any monotone call
sequence admits at most `capacity + rate = 2 * limit` allowed calls inside
a closed 1-second window. -/
lemma countAllowedIn_main (limit : ℕ) (a : ℚ) :
    ∀ (ts : List ℚ) (stored : Option TokenBucket),
      ts.Pairwise (· ≤ ·) →
      (∀ b, stored = some b →
        b.capacity = (limit : ℚ) ∧ b.rate = (limit : ℚ) ∧
        0 ≤ b.tokens ∧ b.tokens ≤ (limit : ℚ) ∧ ∀ x ∈ ts, b.lastUpdate ≤ x) →
      (countAllowedIn a (runLimiter limit stored ts) : ℚ) ≤ limit + limit := by
  intro ts
  induction ts with
  | nil =>
    intro stored _ _
    simp only [runLimiter]
    cases stored <;> · simp only [countAllowedIn, Nat.cast_zero]; positivity
  | cons t ts ih =>
    intro stored hpw hinv
    rcases List.pairwise_cons.mp hpw with ⟨hhead, htail⟩
    have hL0 : (0 : ℚ) ≤ (limit : ℚ) := by positivity
    -- normalize the missing-bucket case to the full fresh bucket
    obtain ⟨b, hbrun, hbc, hbr, hbt0, hbtc, hblu⟩ :
        ∃ b : TokenBucket, runLimiter limit stored (t :: ts)
            = runLimiter limit (some b) (t :: ts)
          ∧ b.capacity = (limit : ℚ) ∧ b.rate = (limit : ℚ)
          ∧ 0 ≤ b.tokens ∧ b.tokens ≤ (limit : ℚ) ∧ b.lastUpdate ≤ t := by
      cases stored with
      | none =>
        exact ⟨⟨(limit : ℚ), t, (limit : ℚ), (limit : ℚ)⟩,
          by simp [runLimiter, allowWithMemory_none_eq], rfl, rfl, hL0, le_refl _, le_refl _⟩
      | some b =>
        obtain ⟨h1, h2, h3, h4, h5⟩ := hinv b rfl
        exact ⟨b, rfl, h1, h2, h3, h4, h5 t (List.mem_cons_self t ts)⟩
    rw [hbrun]
    have hR0 : 0 ≤ min b.capacity (b.tokens + (t - b.lastUpdate) * b.rate) := by
      refine le_min (by rw [hbc]; positivity) ?_
      have : 0 ≤ (t - b.lastUpdate) * b.rate :=
        mul_nonneg (by linarith) (by rw [hbr]; positivity)
      linarith
    have hRcap : min b.capacity (b.tokens + (t - b.lastUpdate) * b.rate) ≤ (limit : ℚ) := by
      rw [← hbc]; exact min_le_left _ _
    by_cases hwin : a ≤ t ∧ t ≤ a + 1
    · -- the call is inside the window: bound the tail by the window lemma
      have hwl : (a + 1 - t) * (limit : ℚ) ≤ 1 * (limit : ℚ) :=
        mul_le_mul_of_nonneg_right (by linarith [hwin.1]) hL0
      by_cases hal : 1 ≤ min b.capacity (b.tokens + (t - b.lastUpdate) * b.rate)
      · have hrun : runLimiter limit (some b) (t :: ts)
            = (t, true) :: runLimiter limit
                (some ⟨min b.capacity (b.tokens + (t - b.lastUpdate) * b.rate) - 1,
                  t, b.capacity, b.rate⟩) ts := by
          simp [runLimiter, allowWithMemory_some_eq, hal]
        have ht0 : (0 : ℚ) ≤ min b.capacity (b.tokens + (t - b.lastUpdate) * b.rate) - 1 := by
          linarith
        have hrest := countAllowedIn_window_le limit a ts
          ⟨min b.capacity (b.tokens + (t - b.lastUpdate) * b.rate) - 1,
            t, b.capacity, b.rate⟩ hbc hbr ht0 hwin.1 hwin.2 htail hhead
        simp only at hrest
        rw [hrun]
        simp [countAllowedIn, hwin.1, hwin.2]
        linarith
      · have hrun : runLimiter limit (some b) (t :: ts)
            = (t, false) :: runLimiter limit
                (some ⟨min b.capacity (b.tokens + (t - b.lastUpdate) * b.rate),
                  t, b.capacity, b.rate⟩) ts := by
          simp [runLimiter, allowWithMemory_some_eq, hal]
        have hrest := countAllowedIn_window_le limit a ts
          ⟨min b.capacity (b.tokens + (t - b.lastUpdate) * b.rate),
            t, b.capacity, b.rate⟩ hbc hbr hR0 hwin.1 hwin.2 htail hhead
        simp only at hrest
        rw [hrun]
        simp [countAllowedIn]
        linarith
    · by_cases htlow : t < a
      · -- before the window: step and recurse with the updated bucket
        have hnota : ¬(a ≤ t ∧ t ≤ a + 1 ∧ True) := fun hcon => absurd hcon.1 (not_le.mpr htlow)
        by_cases hal : 1 ≤ min b.capacity (b.tokens + (t - b.lastUpdate) * b.rate)
        · have hrun : runLimiter limit (some b) (t :: ts)
              = (t, true) :: runLimiter limit
                  (some ⟨min b.capacity (b.tokens + (t - b.lastUpdate) * b.rate) - 1,
                    t, b.capacity, b.rate⟩) ts := by
            simp [runLimiter, allowWithMemory_some_eq, hal]
          have ht0 : (0 : ℚ) ≤ min b.capacity (b.tokens + (t - b.lastUpdate) * b.rate) - 1 := by
            linarith
          have htc : min b.capacity (b.tokens + (t - b.lastUpdate) * b.rate) - 1
              ≤ (limit : ℚ) := by linarith
          have hrest := ih (some ⟨min b.capacity (b.tokens + (t - b.lastUpdate) * b.rate) - 1,
              t, b.capacity, b.rate⟩) htail
            (by rintro b' hb'; injection hb' with hb'; subst hb'
                exact ⟨hbc, hbr, ht0, htc, hhead⟩)
          rw [hrun]
          have hnot : ¬(a ≤ t) := not_le.mpr htlow
          simp [countAllowedIn, hnot]
          linarith
        · have hrun : runLimiter limit (some b) (t :: ts)
              = (t, false) :: runLimiter limit
                  (some ⟨min b.capacity (b.tokens + (t - b.lastUpdate) * b.rate),
                    t, b.capacity, b.rate⟩) ts := by
            simp [runLimiter, allowWithMemory_some_eq, hal]
          have hrest := ih (some ⟨min b.capacity (b.tokens + (t - b.lastUpdate) * b.rate),
              t, b.capacity, b.rate⟩) htail
            (by rintro b' hb'; injection hb' with hb'; subst hb'
                exact ⟨hbc, hbr, hR0, hRcap, hhead⟩)
          rw [hrun]
          simp [countAllowedIn]
          linarith
      · -- past the window: nothing more is counted
        have hta : ¬(t ≤ a + 1) := by
          intro hcon
          exact hwin ⟨le_of_not_lt htlow, hcon⟩
        have hzero : countAllowedIn a (runLimiter limit (some b) (t :: ts)) = 0 := by
          refine countAllowedIn_zero_of_outside limit a (t :: ts) (some b) ?_
          intro x hx
          rcases List.mem_cons.mp hx with rfl | hx
          · exact fun hcon => hta hcon.2
          · have : t ≤ x := hhead x hx
            exact fun hcon => hta (le_trans this hcon.2)
        rw [hzero]
        push_cast
        positivity

/-! ### Claim C6 -/

/-- C6 fails as stated: with the configured rate 2, three calls at
instants 0, 0, ½ are all allowed — the bucket starts full (burst of
`capacity = rate` tokens) and refills during the window — so a 1-second
window contains 3 > 2 allowed calls. -/
theorem AllowTelegramAPI_window_exceeds_rate :
    ¬(countAllowedIn 0 (AllowTelegramAPIRun 2 [0, 0, 1/2]) ≤ 2) := by
  have h : countAllowedIn 0 (AllowTelegramAPIRun 2 [0, 0, 1/2]) = 3 := by
    norm_num [AllowTelegramAPIRun, runLimiter, allowWithMemory, countAllowedIn, min_def]
  omega

/-- C6 amended: over any closed 1-second window and any monotone sequence
of global-API calls on the in-memory limiter, the number of `true`
results is at most twice the configured rate (the initial burst of a full
bucket plus one second of refill); the configured rate alone is exceeded,
as the counterexample shows. -/
theorem AllowTelegramAPI_window_bound (limit : ℕ) (times : List ℚ) (a : ℚ)
    (h : times.Pairwise (· ≤ ·)) :
    countAllowedIn a (AllowTelegramAPIRun limit times) ≤ 2 * limit := by
  have hq := countAllowedIn_main limit a times none h (by intro b hb; cases hb)
  have h2 : (countAllowedIn a (AllowTelegramAPIRun limit times) : ℚ)
      ≤ ((2 * limit : ℕ) : ℚ) := by
    push_cast
    simpa [AllowTelegramAPIRun, two_mul] using hq
  exact_mod_cast h2

/-- Witness for the amended C6 at the counterexample trace: 3 allowed
calls, within the bound 2 × 2. -/
theorem AllowTelegramAPI_window_bound_witness :
    countAllowedIn 0 (AllowTelegramAPIRun 2 [0, 0, 1/2]) ≤ 2 * 2 :=
  AllowTelegramAPI_window_bound 2 [0, 0, 1/2] 0
    (by norm_num [List.pairwise_cons])

/-! ### Lemmas on base64 and the vault -/

/-- Decoding an alphabet character undoes encoding a six-bit value. -/
lemma charToSextet_sextetToChar (s : Nat) (h : s < 64) :
    charToSextet (sextetToChar s) = some s := by
  have hall : ∀ s : Fin 64, charToSextet (sextetToChar s.val) = some s.val := by decide
  exact hall ⟨s, h⟩

/-- No alphabet character is the padding character. -/
lemma sextetToChar_ne_pad (s : Nat) (h : s < 64) : sextetToChar s ≠ '=' := by
  have hall : ∀ s : Fin 64, sextetToChar s.val ≠ '=' := by decide
  exact hall ⟨s, h⟩

/-- Base64 round trip: decoding an encoding of a byte list returns it. -/
lemma b64decode_b64encode (l : List Nat) (h : ∀ b ∈ l, b < 256) :
    b64decode (b64encode l) = some l := by
  induction l using b64encode.induct with
  | case1 => rfl
  | case2 b0 =>
    have h0 : b0 < 256 := h b0 (by simp)
    have e0 := charToSextet_sextetToChar (b0 / 4) (by omega)
    have e1 := charToSextet_sextetToChar (b0 % 4 * 16) (by omega)
    simp [b64encode, b64decode, e0, e1]
    omega
  | case3 b0 b1 =>
    have h0 : b0 < 256 := h b0 (by simp)
    have h1 : b1 < 256 := h b1 (by simp)
    have e0 := charToSextet_sextetToChar (b0 / 4) (by omega)
    have e1 := charToSextet_sextetToChar (b0 % 4 * 16 + b1 / 16) (by omega)
    have e2 := charToSextet_sextetToChar (b1 % 16 * 4) (by omega)
    have hne2 := sextetToChar_ne_pad (b1 % 16 * 4) (by omega)
    simp [b64encode, b64decode, e0, e1, e2, hne2]
    omega
  | case4 b0 b1 b2 rest ih =>
    have h0 : b0 < 256 := h b0 (by simp)
    have h1 : b1 < 256 := h b1 (by simp)
    have h2 : b2 < 256 := h b2 (by simp)
    have e0 := charToSextet_sextetToChar (b0 / 4) (by omega)
    have e1 := charToSextet_sextetToChar (b0 % 4 * 16 + b1 / 16) (by omega)
    have e2 := charToSextet_sextetToChar (b1 % 16 * 4 + b2 / 64) (by omega)
    have e3 := charToSextet_sextetToChar (b2 % 64) (by omega)
    have hne2 := sextetToChar_ne_pad (b1 % 16 * 4 + b2 / 64) (by omega)
    have hne3 := sextetToChar_ne_pad (b2 % 64) (by omega)
    have ihr := ih (fun b hb => h b (by simp [hb]))
    simp [b64encode, b64decode, e0, e1, e2, e3, hne2, hne3, ihr]
    omega

/-! ### Claim C8 -/

/-- C8: for every token, every 32-byte key and every 12-byte nonce,
decrypting an encryption under the same key returns the original token,
and decrypting it under any other 32-byte key returns an error.  (The
AEAD primitive is the spec's idealized contract, under which wrong-key
rejection is certain rather than overwhelmingly probable.) -/
theorem DecryptToken_EncryptToken (token key key2 nonce : List Nat)
    (hk : key.length = 32) (hk2 : key2.length = 32) (hn : nonce.length = 12)
    (htb : ∀ b ∈ token, b < 256) (hkb : ∀ b ∈ key, b < 256)
    (hnb : ∀ b ∈ nonce, b < 256) :
    ∃ ct, EncryptToken token key nonce = .ok ct
      ∧ DecryptToken ct key = .ok token
      ∧ (key2 ≠ key → ∃ msg, DecryptToken ct key2 = .error msg) := by
  have henc : EncryptToken token key nonce
      = .ok (b64encode (nonce ++ (token ++ key))) := by
    simp [EncryptToken, hk, gcmSeal]
  have hbytes : ∀ b ∈ nonce ++ (token ++ key), b < 256 := by
    intro b hb
    rcases List.mem_append.mp hb with hb | hb
    · exact hnb b hb
    · rcases List.mem_append.mp hb with hb | hb
      · exact htb b hb
      · exact hkb b hb
  have hdec := b64decode_b64encode _ hbytes
  have hlen : (nonce ++ (token ++ key)).length = 12 + (token.length + 32) := by
    simp [hn, hk]
  have htake : (nonce ++ (token ++ key)).take gcmNonceSize = nonce := by
    rw [gcmNonceSize, ← hn]
    exact List.take_left nonce (token ++ key)
  have hdrop : (nonce ++ (token ++ key)).drop gcmNonceSize = token ++ key := by
    rw [gcmNonceSize, ← hn]
    exact List.drop_left nonce (token ++ key)
  have hlen2 : (token ++ key).length = token.length + 32 := by simp [hk]
  have htake2 : (token ++ key).take ((token ++ key).length - 32) = token := by
    rw [hlen2, Nat.add_sub_cancel]
    exact List.take_left token key
  have hdrop2 : (token ++ key).drop ((token ++ key).length - 32) = key := by
    rw [hlen2, Nat.add_sub_cancel]
    exact List.drop_left token key
  have hnshort : ¬((nonce ++ (token ++ key)).length < gcmNonceSize) := by
    rw [hlen, gcmNonceSize]; omega
  refine ⟨_, henc, ?_, ?_⟩
  · unfold DecryptToken
    simp only [hdec]
    rw [if_neg (by simp [hk]), if_neg hnshort, htake, hdrop]
    unfold gcmOpen
    rw [if_neg (by rw [hlen2]; omega), hdrop2, if_pos rfl, htake2]
  · intro hne
    unfold DecryptToken
    simp only [hdec]
    rw [if_neg (by simp [hk2]), if_neg hnshort, htake, hdrop]
    unfold gcmOpen
    rw [if_neg (by rw [hlen2]; omega), hdrop2, if_neg (Ne.symm hne)]
    exact ⟨_, rfl⟩

/-- Witness for C8 at concrete byte lists. -/
theorem DecryptToken_EncryptToken_witness :
    ∃ ct, EncryptToken [104, 105] (List.replicate 32 0) (List.replicate 12 2) = .ok ct
      ∧ DecryptToken ct (List.replicate 32 0) = .ok [104, 105]
      ∧ (List.replicate 32 1 ≠ List.replicate 32 0 →
          ∃ msg, DecryptToken ct (List.replicate 32 1) = .error msg) :=
  DecryptToken_EncryptToken [104, 105] (List.replicate 32 0) (List.replicate 32 1)
    (List.replicate 12 2) (by decide) (by decide) (by decide) (by decide) (by decide)
    (by decide)

/-- Witness for the amended C9: a guest under an approved ban self-requests
an unban, which is opened with the guest as subject and requester. -/
theorem handleUnbanSelf_checks_then_gates_witness :
    handleUnbanSelf 7 true [⟨.ban, .approved, 0⟩] 3
      = (.requested 7 7 ⟨.unban, .pending, 3⟩,
          [⟨.unban, .pending, 3⟩, ⟨.ban, .approved, 0⟩]) :=
  (handleUnbanSelf_checks_then_gates 7 true [⟨.ban, .approved, 0⟩] 3).2.1
    (by decide) (by decide)

end ForwarderBot
